import Mathlib

/-!
Shallow embedding of the field-path algebra of `subgrounds/subgraph.py`
(classes `Filter`, `SyntheticField`, `FieldPath`, `Object`, `Subgraph`).

Python mutable state is made explicit:
* the class variable `SyntheticField.counter` is threaded as an explicit
  `Nat` argument and returned incremented;
* in-place mutation of a `FieldPath` (attribute traversal appends to
  `self.path`; argument binding overwrites `self.leaf.args`) is modelled by
  returning the updated path;
* Python exceptions become `Except`/error variants, with the error names of
  the specification's taxonomy.

The helper module `subgrounds.schema` (functions `field_of_object`,
`type_of_field`, `arguments_of_field_args`) is not part of the sources; those
helpers are modelled from the specification's Schema Service interface and are
marked as such in their doc comments.
-/

namespace Subgrounds

/-- Universe of plain Python values appearing as filter comparands and
argument values (`int`/`str` literals; floats are not needed by any claim). -/
inductive Value where
  | vint (n : Int)
  | vstr (s : String)
deriving DecidableEq, Repr

/-- Tags for the Python function objects stored in a synthetic field's
metadata (`operator.add`, `operator.sub`, ..., `utils.identity`). -/
inductive Fn where
  | add
  | sub
  | mul
  | truediv
  | pow
  | neg
  | abs
  | identity
deriving DecidableEq, Repr

/-- `TypeMeta.FieldMeta`: a concrete schema field, with its name, the names of
its declared arguments, and the name of its declared result type. -/
structure FieldMeta where
  name : String
  arguments : List String
  type_name : String
deriving DecidableEq, Repr

/-- `Filter.Operator` (lines 23-29 of `subgraph.py`). -/
inductive Operator where
  | EQ
  | NEQ
  | LT
  | LTE
  | GT
  | GTE
deriving DecidableEq, Repr

mutual

/-- `TypeMeta.T`: the type descriptors the core distinguishes.  Object and
interface types carry their field registry (concrete fields and registered
synthetic fields); a synthetic-field descriptor also occurs as a "type" (it is
what `type_of_field` resolves a synthetic field to, making the path terminal). -/
inductive TypeMeta where
  | ObjectMeta (name : String) (fields : List FieldRef)
  | InterfaceMeta (name : String) (fields : List FieldRef)
  | EnumMeta (name : String)
  | ScalarMeta (name : String)
  | SyntheticFieldMeta (meta : SFieldMeta)

/-- A field registry entry: `TypeMeta.FieldMeta | TypeMeta.SyntheticFieldMeta`. -/
inductive FieldRef where
  | fieldMeta (f : FieldMeta)
  | synth (m : SFieldMeta)

/-- `TypeMeta.SyntheticFieldMeta`: name, description, function and lowered
dependency list of a synthetic field. -/
inductive SFieldMeta where
  | mk (name : String) (description : String) (func : Fn) (dependencies : List Dep)

/-- One lowered dependency of a synthetic field: a literal, another synthetic
field's descriptor, or a field path lowered to its element chain. -/
inductive Dep where
  | lit (v : Value)
  | sfmeta (m : SFieldMeta)
  | chain (elems : List LoweredEle)

/-- A comparand (the `Any`-typed right-hand side of a comparison and the
`value` slot of a `Filter`): a plain value or a field path. -/
inductive CmpVal where
  | prim (v : Value)
  | fpathCmp (fp : FieldPath)

/-- `Filter` (lines 15-21): a resolved field, a comparison operator and a
comparand. -/
inductive Filter where
  | mk (field : FieldMeta) (op : Operator) (value : CmpVal)

/-- One element of a lowered field-path chain: `(args, fmeta)` for a concrete
field, or the bare descriptor for a synthetic field. -/
inductive LoweredEle where
  | fieldEle (args : Option (List Argument)) (f : FieldMeta)
  | synthEle (m : SFieldMeta)

/-- `FieldPath.PathElement` (lines 125-128): a field reference with optional
bound arguments. -/
inductive PathElement where
  | mk (type_ : FieldRef) (args : Option (List Argument))

/-- A normalized argument (`subgrounds.query.Argument`): name and value. -/
inductive Argument where
  | mk (name : String) (value : ArgValue)

/-- A formatted argument value as produced by `fmt_arg`: the raw value passed
through unchanged, a filter dictionary (from a `where` list), or a field name
string (from an `orderBy` field path). -/
inductive ArgValue where
  | raw (r : RawArg)
  | filterDict (d : List (String × CmpVal))
  | fieldName (s : String)

/-- A raw keyword-argument value as supplied by the caller. -/
inductive RawArg where
  | prim (v : Value)
  | filterList (fs : List Filter)
  | fieldPathV (fp : FieldPath)

/-- `FieldPath` (lines 118-123): root type, current type and element list.
(The `subgraph` backpointer is replaced by passing the schema explicitly to
the operations that consult it.) -/
inductive FieldPath where
  | mk (root_type : TypeMeta) (type_ : TypeMeta) (path : List PathElement)

end

deriving instance BEq for TypeMeta, PathElement

namespace Filter

/-- The filter's resolved field. -/
def field : Filter → FieldMeta
  | .mk f _ _ => f

/-- The filter's comparison operator. -/
def op : Filter → Operator
  | .mk _ o _ => o

/-- The filter's comparand. -/
def value : Filter → CmpVal
  | .mk _ _ v => v

/-- `Filter.name` (lines 31-45): the rendered argument key of a filter. -/
def name (f : Filter) : String :=
  match f.op with
  | .EQ => f.field.name
  | .NEQ => f.field.name ++ "_not"
  | .LT => f.field.name ++ "_lt"
  | .GT => f.field.name ++ "_gt"
  | .LTE => f.field.name ++ "_lte"
  | .GTE => f.field.name ++ "_gte"

end Filter

/-- Python dict update: writing key `k` keeps the position of an existing
entry for `k` (overwriting its value) and otherwise appends a new entry. -/
def dictInsert (d : List (String × CmpVal)) (k : String) (v : CmpVal) :
    List (String × CmpVal) :=
  if d.any (fun kv => kv.1 == k) then
    d.map (fun kv => if kv.1 == k then (k, v) else kv)
  else
    d ++ [(k, v)]

/-- `Filter.to_dict` (lines 47-49): the Python dict comprehension writing
`f.name: f.value` for each filter in order, with Python's duplicate-key
overwrite semantics. -/
def Filter.to_dict (filters : List Filter) : List (String × CmpVal) :=
  filters.foldl (fun d f => dictInsert d f.name f.value) []

namespace TypeMeta

/-- The name of a type descriptor. -/
def name : TypeMeta → String
  | .ObjectMeta n _ => n
  | .InterfaceMeta n _ => n
  | .EnumMeta n => n
  | .ScalarMeta n => n
  | .SyntheticFieldMeta (.mk n _ _ _) => n

end TypeMeta

namespace FieldRef

/-- The name of a field registry entry. -/
def name : FieldRef → String
  | .fieldMeta f => f.name
  | .synth (.mk n _ _ _) => n

end FieldRef

namespace SFieldMeta

/-- Accessor for the descriptor's auto- or registration-assigned name. -/
def name : SFieldMeta → String
  | .mk n _ _ _ => n

/-- Accessor for the descriptor's description string. -/
def description : SFieldMeta → String
  | .mk _ d _ _ => d

/-- Accessor for the descriptor's function. -/
def func : SFieldMeta → Fn
  | .mk _ _ f _ => f

/-- Accessor for the descriptor's lowered dependency list. -/
def dependencies : SFieldMeta → List Dep
  | .mk _ _ _ ds => ds

end SFieldMeta

namespace PathElement

/-- The element's field reference. -/
def type_ : PathElement → FieldRef
  | .mk t _ => t

/-- The element's bound arguments, if any. -/
def args : PathElement → Option (List Argument)
  | .mk _ a => a

end PathElement

namespace FieldPath

/-- The path's declared root type. -/
def root_type : FieldPath → TypeMeta
  | .mk r _ _ => r

/-- The path's current type (the result type of its last element). -/
def type_ : FieldPath → TypeMeta
  | .mk _ t _ => t

/-- The path's element list. -/
def path : FieldPath → List PathElement
  | .mk _ _ p => p

/-- `FieldPath.leaf` (lines 151-153): the last path element.  Python raises
`IndexError` on an empty list; here the empty case is `none`. -/
def leaf (fp : FieldPath) : Option PathElement :=
  fp.path.getLast?

end FieldPath

/-- `SchemaMeta`: the schema's type registry, mapping type names to type
descriptors. -/
structure SchemaMeta where
  type_map : List (String × TypeMeta)

/-- The error taxonomy of the specification (plus the two failure modes that
fall outside it: an empty path's missing leaf, and `extend` called on a path
whose last field is not object-typed). -/
inductive SgErr where
  | unknownField
  | terminalField
  | invalidArgument
  | argumentValidation
  | invalidOrderBy
  | invalidFilter
  | pathMismatch
  | notObjectField
  | indexError
deriving DecidableEq, Repr

/-- Modelled from the spec: the Schema Service operation
`fieldOf(type, name) -> FieldMeta | NotFound` (`schema.field_of_object`,
which is not among the sources).  Looks the name up in the object's or
interface's field registry; registry entries are concrete fields or
registered synthetic-field descriptors. -/
def field_of_object : TypeMeta → String → Option FieldRef
  | .ObjectMeta _ fs, n => fs.find? (fun fr => fr.name == n)
  | .InterfaceMeta _ fs, n => fs.find? (fun fr => fr.name == n)
  | _, _ => none

/-- Modelled from the spec: the Schema Service operation
`resultTypeOf(schema, field) -> TypeDescriptor` (`schema.type_of_field`,
which is not among the sources).  A concrete field resolves to the registry
entry for its declared result type name; a synthetic field resolves to its
own descriptor (which is why a synthetic-terminated path is terminal). -/
def type_of_field (s : SchemaMeta) : FieldRef → Option TypeMeta
  | .fieldMeta f => s.type_map.lookup f.type_name
  | .synth m => some (.SyntheticFieldMeta m)

/-- Modelled from the spec: the Schema Service operation
`normalizeArguments(schema, field, rawArgsByName) -> NormalizedArgs |
ValidationError` (`schema.arguments_of_field_args`, which is not among the
sources).  Validates the name-to-value mapping against the field's declared
argument schema: every supplied name must be a declared argument name. -/
def arguments_of_field_args (_s : SchemaMeta) (f : FieldMeta)
    (argmap : List (String × ArgValue)) : Except SgErr (List Argument) :=
  if argmap.all (fun kv => f.arguments.contains kv.1) then
    .ok (argmap.map (fun kv => .mk kv.1 kv.2))
  else
    .error .argumentValidation

namespace FieldPath

/-- `fmt_arg` (lines 160-173, nested in `FieldPath.__call__`): special-cases
a `where` value that is a non-empty filter list (converted by
`Filter.to_dict`) and an `orderBy` value that is a `FieldPath` (replaced by
its leaf field's name; a synthetic leaf raises); every other name/value pair
passes through unchanged. -/
def fmt_arg (name : String) (raw_arg : RawArg) : Except SgErr ArgValue :=
  match name, raw_arg with
  | "where", .filterList (f :: rest) => .ok (.filterDict (Filter.to_dict (f :: rest)))
  | "orderBy", .fieldPathV fpath =>
    match fpath.leaf with
    | some ele =>
      match ele.type_ with
      | .fieldMeta fmeta => .ok (.fieldName fmeta.name)
      | .synth _ => .error .invalidOrderBy
    | none => .error .indexError
  | _, _ => .ok (.raw raw_arg)

/-- The dict comprehension of `FieldPath.__call__` (line 177),
`\x7bkey: fmt_arg(key, val) for key, val in kwargs.items()\x7d`: format every
keyword argument in order, propagating the first exception.  (Python keyword
arguments have distinct keys, so the dict is represented by the ordered
association list.) -/
def fmtKwargs : List (String × RawArg) → Except SgErr (List (String × ArgValue))
  | [] => .ok []
  | kv :: rest =>
    match fmt_arg kv.1 kv.2 with
    | .error e => .error e
    | .ok v =>
      match fmtKwargs rest with
      | .error e => .error e
      | .ok tl => .ok ((kv.1, v) :: tl)

/-- `FieldPath.__call__` (lines 158-182): argument binding.  Requires a
concrete-field leaf (a synthetic leaf raises); formats each keyword argument
with `fmt_arg`, validates the mapping through the Schema Service, and
overwrites the leaf element's bound arguments with the result, returning the
(otherwise unchanged) path. -/
def call (s : SchemaMeta) (fp : FieldPath) (kwargs : List (String × RawArg)) :
    Except SgErr FieldPath :=
  match fp.leaf with
  | none => .error .indexError
  | some leafEle =>
    match leafEle.type_ with
    | .fieldMeta field =>
      match fmtKwargs kwargs with
      | .error e => .error e
      | .ok fmtd =>
        match arguments_of_field_args s field fmtd with
        | .error e => .error e
        | .ok args =>
          .ok (.mk fp.root_type fp.type_
            (fp.path.dropLast ++ [.mk leafEle.type_ (some args)]))
    | .synth _ => .error .invalidArgument

/-- The attribute names resolved natively on a `FieldPath` by
`super().__getattribute__` before any schema lookup happens: the dataclass
fields, the properties and the methods of the class. -/
def nativeNames : List String :=
  ["subgraph", "root_type", "type_", "path",
   "schema", "fieldmeta_path", "root", "leaf",
   "extend", "mk_filter"]

/-- Result of `FieldPath.__getattribute__`: the native member (path
untouched), the path extended by one element, or an error. -/
inductive GetAttrResult where
  | native
  | extended (fp : FieldPath)
  | failed (e : SgErr)

/-- `FieldPath.__getattribute__` (lines 184-204): attribute access.  A native
member resolves without consulting the schema; otherwise a terminal current
type (scalar/enum/synthetic) raises, and an object/interface current type
looks the field up, resolves its result type, appends an argument-free
element and moves the current type. -/
def getattr (s : SchemaMeta) (fp : FieldPath) (name : String) : GetAttrResult :=
  if nativeNames.contains name then
    .native
  else
    match fp.type_ with
    | .EnumMeta _ | .ScalarMeta _ | .SyntheticFieldMeta _ => .failed .terminalField
    | .ObjectMeta _ _ | .InterfaceMeta _ _ =>
      match field_of_object fp.type_ name with
      | none => .failed .unknownField
      | some field =>
        match type_of_field s field with
        | some t => .extended (.mk fp.root_type t (fp.path ++ [.mk field none]))
        | none => .failed .unknownField

/-- `FieldPath.extend` (lines 206-219): splice `ext` onto `fpath`.  The base
path must end in a concrete field whose result type is an object or interface;
that type's name must equal `ext`'s declared root type name; the result keeps
the base's root type, takes `ext`'s current type and concatenates the element
lists. -/
def extend (s : SchemaMeta) (fpath ext : FieldPath) : Except SgErr FieldPath :=
  match fpath.leaf with
  | none => .error .indexError
  | some leafEle =>
    match leafEle.type_ with
    | .fieldMeta fmeta =>
      match type_of_field s (.fieldMeta fmeta) with
      | some (.ObjectMeta tname _) | some (.InterfaceMeta tname _) =>
        if tname == ext.root_type.name then
          .ok (.mk fpath.root_type ext.type_ (fpath.path ++ ext.path))
        else
          .error .pathMismatch
      | _ => .error .notObjectField
    | .synth _ => .error .notObjectField

/-- `FieldPath.mk_filter` (lines 222-228): build a filter from a path whose
leaf is a concrete field; a synthetic leaf raises. -/
def mk_filter (fpath : FieldPath) (op : Operator) (value : CmpVal) :
    Except SgErr Filter :=
  match fpath.leaf with
  | some (.mk (.fieldMeta fmeta) _) => .ok (Filter.mk fmeta op value)
  | some (.mk (.synth _) _) => .error .invalidFilter
  | none => .error .indexError

/-- Result of `FieldPath.__eq__` (lines 230-235): under `Filter.test_mode` a
boolean structural comparison, otherwise a filter construction; `attrErr` is
the `AttributeError` Python raises when the test-mode branch dereferences
`value.type_` on a right-hand side that is not a `FieldPath`. -/
inductive EqResult where
  | boolRes (b : Bool)
  | filterRes (r : Except SgErr Filter)
  | attrErr

/-- `FieldPath.__eq__` (lines 230-235): with the class variable
`Filter.test_mode` set (threaded here as an argument, default `false` at
process start) it compares `type_` and `path` structurally, otherwise it
builds an `EQ` filter on the comparand. -/
def eq (test_mode : Bool) (self : FieldPath) (value : CmpVal) : EqResult :=
  if test_mode then
    match value with
    | .fpathCmp other =>
      .boolRes (self.type_ == other.type_ && self.path == other.path)
    | .prim _ => .attrErr
  else
    .filterRes (mk_filter self .EQ value)

/-- `FieldPath.__lt__` (lines 237-238). -/
def lt (self : FieldPath) (value : CmpVal) : Except SgErr Filter :=
  mk_filter self .LT value

/-- `FieldPath.__gt__` (lines 240-241). -/
def gt (self : FieldPath) (value : CmpVal) : Except SgErr Filter :=
  mk_filter self .GT value

/-- `FieldPath.__lte__` (lines 243-244). -/
def lte (self : FieldPath) (value : CmpVal) : Except SgErr Filter :=
  mk_filter self .LTE value

/-- `FieldPath.__gte__` (lines 246-247). -/
def gte (self : FieldPath) (value : CmpVal) : Except SgErr Filter :=
  mk_filter self .GTE value

end FieldPath

mutual

/-- `SyntheticField` (lines 51-91): the stored function, the stored operand
list and the descriptor built at construction.  (The `subgraph` backpointer
is dropped as with `FieldPath`.) -/
inductive SyntheticField where
  | mk (func : Fn) (deps : List Operand) (meta : SFieldMeta)

/-- One constructor operand (`FieldPath | SyntheticField | int | float | str`). -/
inductive Operand where
  | fpath (fp : FieldPath)
  | sfield (sf : SyntheticField)
  | const (v : Value)

end

namespace SyntheticField

/-- The stored function. -/
def func : SyntheticField → Fn
  | .mk f _ _ => f

/-- The stored operand list. -/
def deps : SyntheticField → List Operand
  | .mk _ d _ => d

/-- The descriptor built at construction. -/
def meta : SyntheticField → SFieldMeta
  | .mk _ _ m => m

end SyntheticField

/-- The inner function `f(path_ele)` of `SyntheticField.__init__`
(lines 65-76 restricted to path elements): a concrete-field element lowers to
`(args, fmeta)`, a synthetic element to its bare descriptor. -/
def lowerPathEle : PathElement → LoweredEle
  | .mk (.fieldMeta fmeta) args => .fieldEle args fmeta
  | .mk (.synth fmeta) _ => .synthEle fmeta

/-- The dependency-lowering function `f(dep)` of `SyntheticField.__init__`
(lines 65-82): a field path lowers to its element chain, a synthetic field to
its descriptor, a literal passes through. -/
def lowerDep : Operand → Dep
  | .fpath fpath => .chain (fpath.path.map lowerPathEle)
  | .sfield sfield => .sfmeta sfield.meta
  | .const value => .lit value

/-- The process-start value of the class variable `SyntheticField.counter`
(line 53). -/
def counter0 : Nat := 0

/-- `SyntheticField.__init__` (lines 60-91) with the class variable
`SyntheticField.counter` threaded explicitly: stores function and operands,
builds the descriptor with the auto-generated name observed from the counter,
the empty description and the lowered dependencies, then increments the
counter. -/
def SyntheticField.construct (counter : Nat) (func : Fn) (deps : List Operand) :
    SyntheticField × Nat :=
  (SyntheticField.mk func deps
    (SFieldMeta.mk ("SyntheticField_" ++ Nat.repr counter) "" func
      (deps.map lowerDep)),
   counter + 1)

/-- `FieldPath.__add__` (lines 250-251). -/
def FieldPath.add (counter : Nat) (self : FieldPath) (other : Operand) :
    SyntheticField × Nat :=
  SyntheticField.construct counter .add [.fpath self, other]

/-- `FieldPath.__sub__` (lines 253-254). -/
def FieldPath.sub (counter : Nat) (self : FieldPath) (other : Operand) :
    SyntheticField × Nat :=
  SyntheticField.construct counter .sub [.fpath self, other]

/-- `FieldPath.__mul__` (lines 256-257). -/
def FieldPath.mul (counter : Nat) (self : FieldPath) (other : Operand) :
    SyntheticField × Nat :=
  SyntheticField.construct counter .mul [.fpath self, other]

/-- `FieldPath.__truediv__` (lines 259-260). -/
def FieldPath.truediv (counter : Nat) (self : FieldPath) (other : Operand) :
    SyntheticField × Nat :=
  SyntheticField.construct counter .truediv [.fpath self, other]

/-- `FieldPath.__pow__` (lines 262-263). -/
def FieldPath.pow (counter : Nat) (self : FieldPath) (other : Operand) :
    SyntheticField × Nat :=
  SyntheticField.construct counter .pow [.fpath self, other]

/-- `FieldPath.__neg__` (lines 265-266). -/
def FieldPath.neg (counter : Nat) (self : FieldPath) : SyntheticField × Nat :=
  SyntheticField.construct counter .neg [.fpath self]

/-- `FieldPath.__abs__` (lines 268-269). -/
def FieldPath.abs (counter : Nat) (self : FieldPath) : SyntheticField × Nat :=
  SyntheticField.construct counter .abs [.fpath self]

/-- `SyntheticField.__add__` (lines 97-98). -/
def SyntheticField.add (counter : Nat) (self : SyntheticField) (other : Operand) :
    SyntheticField × Nat :=
  SyntheticField.construct counter .add [.sfield self, other]

/-- `SyntheticField.__sub__` (lines 100-101). -/
def SyntheticField.sub (counter : Nat) (self : SyntheticField) (other : Operand) :
    SyntheticField × Nat :=
  SyntheticField.construct counter .sub [.sfield self, other]

/-- `SyntheticField.__mul__` (lines 103-104). -/
def SyntheticField.mul (counter : Nat) (self : SyntheticField) (other : Operand) :
    SyntheticField × Nat :=
  SyntheticField.construct counter .mul [.sfield self, other]

/-- `SyntheticField.__truediv__` (lines 106-107). -/
def SyntheticField.truediv (counter : Nat) (self : SyntheticField) (other : Operand) :
    SyntheticField × Nat :=
  SyntheticField.construct counter .truediv [.sfield self, other]

/-- `SyntheticField.__pow__` (lines 109-110). -/
def SyntheticField.pow (counter : Nat) (self : SyntheticField) (other : Operand) :
    SyntheticField × Nat :=
  SyntheticField.construct counter .pow [.sfield self, other]

/-- `SyntheticField.__neg__` (lines 112-113). -/
def SyntheticField.neg (counter : Nat) (self : SyntheticField) : SyntheticField × Nat :=
  SyntheticField.construct counter .neg [.sfield self]

/-- `SyntheticField.__abs__` (lines 115-116). -/
def SyntheticField.abs (counter : Nat) (self : SyntheticField) : SyntheticField × Nat :=
  SyntheticField.construct counter .abs [.sfield self]

/-- A sequential run of `SyntheticField` constructions, threading the class
counter through: returns the constructed fields in order and the final
counter value. -/
def runConstructions (c0 : Nat) : List (Fn × List Operand) → List SyntheticField × Nat
  | [] => ([], c0)
  | req :: rest =>
    let p := SyntheticField.construct c0 req.1 req.2
    let q := runConstructions p.2 rest
    (p.1 :: q.1, q.2)

/-- `Object` (lines 271-274): a root accessor wrapping one object or
interface type.  (The `subgraph` backpointer is dropped as with `FieldPath`.) -/
structure Object where
  object_ : TypeMeta

/-- The attribute names resolved natively on an `Object` by
`super().__getattribute__` before any schema lookup happens. -/
def Object.nativeNames : List String :=
  ["subgraph", "object_", "schema"]

/-- Result of `Object.__getattribute__`: the native member, a brand-new
single-element field path, or an error. -/
inductive ObjAttrResult where
  | native
  | newPath (fp : FieldPath)
  | failed (e : SgErr)

/-- `Object.__getattribute__` (lines 280-289): a native member resolves
without consulting the schema; otherwise the name is resolved as a field of
the wrapped type and a fresh one-element `FieldPath` rooted at that type is
returned, with no bound arguments. -/
def Object.getattr (s : SchemaMeta) (ob : Object) (name : String) : ObjAttrResult :=
  if Object.nativeNames.contains name then
    .native
  else
    match field_of_object ob.object_ name with
    | none => .failed .unknownField
    | some field =>
      match type_of_field s field with
      | some t => .newPath (.mk ob.object_ t [.mk field none])
      | none => .failed .unknownField

/-- A type is terminal when it is a scalar, an enum or a synthetic-field
descriptor: no further attribute access may extend a path whose current type
is terminal. -/
def TypeMeta.isTerminal : TypeMeta → Bool
  | .EnumMeta _ => true
  | .ScalarMeta _ => true
  | .SyntheticFieldMeta _ => true
  | .ObjectMeta _ _ => false
  | .InterfaceMeta _ _ => false

/-- The path-element invariant: bound arguments occur only on an element
whose field reference is a concrete field. -/
def PathElement.argsOk (e : PathElement) : Bool :=
  match e.args with
  | none => true
  | some _ =>
    match e.type_ with
    | .fieldMeta _ => true
    | .synth _ => false

/-- The invariant lifted to a whole path. -/
def FieldPath.argsOk (fp : FieldPath) : Bool :=
  fp.path.all PathElement.argsOk

/-- Selector for the five direct comparison methods of `FieldPath`. -/
inductive CmpSel where
  | eqS
  | ltS
  | gtS
  | lteS
  | gteS
deriving DecidableEq, Repr

/-- The operator each direct comparison method passes to `mk_filter`. -/
def CmpSel.op : CmpSel → Operator
  | .eqS => .EQ
  | .ltS => .LT
  | .gtS => .GT
  | .lteS => .LTE
  | .gteS => .GTE

/-- Dispatch to the direct comparison methods (`__eq__` outside test mode,
`__lt__`, `__gt__`, `__lte__`, `__gte__`). -/
def FieldPath.compare (sel : CmpSel) (self : FieldPath) (value : CmpVal) :
    Except SgErr Filter :=
  match sel with
  | .eqS =>
    match FieldPath.eq false self value with
    | .filterRes r => r
    | .boolRes _ => .error .invalidFilter
    | .attrErr => .error .invalidFilter
  | .ltS => FieldPath.lt self value
  | .gtS => FieldPath.gt self value
  | .lteS => FieldPath.lte self value
  | .gteS => FieldPath.gte self value

/-- Selector for the five binary arithmetic methods. -/
inductive ArithSel where
  | addS
  | subS
  | mulS
  | divS
  | powS
deriving DecidableEq, Repr

/-- The function tag each binary arithmetic method stores. -/
def ArithSel.fn : ArithSel → Fn
  | .addS => .add
  | .subS => .sub
  | .mulS => .mul
  | .divS => .truediv
  | .powS => .pow

/-- Dispatch to the binary arithmetic methods of `FieldPath`. -/
def FieldPath.arith (sel : ArithSel) (counter : Nat) (self : FieldPath)
    (other : Operand) : SyntheticField × Nat :=
  match sel with
  | .addS => FieldPath.add counter self other
  | .subS => FieldPath.sub counter self other
  | .mulS => FieldPath.mul counter self other
  | .divS => FieldPath.truediv counter self other
  | .powS => FieldPath.pow counter self other

/-- Dispatch to the binary arithmetic methods of `SyntheticField`. -/
def SyntheticField.arith (sel : ArithSel) (counter : Nat) (self : SyntheticField)
    (other : Operand) : SyntheticField × Nat :=
  match sel with
  | .addS => SyntheticField.add counter self other
  | .subS => SyntheticField.sub counter self other
  | .mulS => SyntheticField.mul counter self other
  | .divS => SyntheticField.truediv counter self other
  | .powS => SyntheticField.pow counter self other

/-- The auto-generated descriptor name observed at counter value `c`. -/
def autoName (c : Nat) : String :=
  "SyntheticField_" ++ Nat.repr c

namespace Fixture

/-- Concrete field `symbol : String` of the test schema. -/
def fmSymbol : FieldMeta := ⟨"symbol", [], "String"⟩

/-- Concrete field `decimals : Int` of the test schema. -/
def fmDecimals : FieldMeta := ⟨"decimals", [], "Int"⟩

/-- Concrete field `price : BigDecimal` of the test schema. -/
def fmPrice : FieldMeta := ⟨"price", [], "BigDecimal"⟩

/-- Concrete field `token0 : Token` of the test schema. -/
def fmToken0 : FieldMeta := ⟨"token0", [], "Token"⟩

/-- Concrete field `pairs : Pair` with declared arguments of the test schema. -/
def fmPairs : FieldMeta := ⟨"pairs", ["first", "where", "orderBy"], "Pair"⟩

/-- A registered synthetic-field descriptor on `Token`. -/
def sfm0 : SFieldMeta := .mk "sf0" "" .identity []

/-- Object type `Token` of the test schema. -/
def tyToken : TypeMeta :=
  .ObjectMeta "Token" [.fieldMeta fmSymbol, .fieldMeta fmDecimals, .synth sfm0]

/-- Object type `Pair` of the test schema. -/
def tyPair : TypeMeta :=
  .ObjectMeta "Pair" [.fieldMeta fmToken0, .fieldMeta fmPrice]

/-- Root object type `Query` of the test schema. -/
def tyQuery : TypeMeta := .ObjectMeta "Query" [.fieldMeta fmPairs]

/-- The test schema's type registry. -/
def schema : SchemaMeta :=
  ⟨[("String", .ScalarMeta "String"), ("Int", .ScalarMeta "Int"),
    ("BigDecimal", .ScalarMeta "BigDecimal"), ("Token", tyToken),
    ("Pair", tyPair), ("Query", tyQuery)]⟩

/-- The path `Query.pairs`. -/
def pPairs : FieldPath := .mk tyQuery tyPair [.mk (.fieldMeta fmPairs) none]

/-- The path `Query.pairs.price` (scalar-terminated). -/
def pPairsPrice : FieldPath :=
  .mk tyQuery (.ScalarMeta "BigDecimal")
    [.mk (.fieldMeta fmPairs) none, .mk (.fieldMeta fmPrice) none]

/-- The path `Pair.price` (scalar-terminated). -/
def pPrice : FieldPath :=
  .mk tyPair (.ScalarMeta "BigDecimal") [.mk (.fieldMeta fmPrice) none]

/-- The path `Pair.token0.symbol`, independently rooted at `Pair`. -/
def pToken0Symbol : FieldPath :=
  .mk tyPair (.ScalarMeta "String")
    [.mk (.fieldMeta fmToken0) none, .mk (.fieldMeta fmSymbol) none]

/-- A path terminated by the registered synthetic field of `Token`. -/
def pSynth : FieldPath :=
  .mk tyToken (.SyntheticFieldMeta sfm0) [.mk (.synth sfm0) none]

/-- The root accessor for `Query`. -/
def obQuery : Object := ⟨tyQuery⟩

/-- Comparand 1 of the filter scenarios. -/
def v1 : CmpVal := .prim (.vint 1)

/-- Comparand 2 of the filter scenarios. -/
def v2 : CmpVal := .prim (.vint 2)

/-- A concrete field whose declared result type name is `Foo`. -/
def fmWeird : FieldMeta := ⟨"w", [], "Foo"⟩

/-- A schema in which the type named `Foo` is a scalar. -/
def cexSchema : SchemaMeta := ⟨[("Foo", .ScalarMeta "Foo")]⟩

/-- A path ending in the concrete field `w`, whose declared result type
(`Foo`) is a scalar under `cexSchema`. -/
def cexA : FieldPath :=
  .mk tyQuery (.ScalarMeta "Foo") [.mk (.fieldMeta fmWeird) none]

/-- A path declared to root at an object type that is also named `Foo`. -/
def cexB : FieldPath :=
  .mk (.ObjectMeta "Foo" []) (.ObjectMeta "Foo" [])
    [.mk (.fieldMeta fmSymbol) none]

/-- An object type carrying a schema field whose name collides with the
native member `subgraph` of the wrappers. -/
def tyShadow : TypeMeta := .ObjectMeta "Shadow" [.fieldMeta ⟨"subgraph", [], "Int"⟩]

/-- A path currently at the colliding type `Shadow`. -/
def pShadow : FieldPath := .mk tyShadow tyShadow [.mk (.fieldMeta ⟨"s", [], "Shadow"⟩) none]

end Fixture

/-- C1: for every field path whose current type is terminal (a scalar, an
enum or a synthetic-field descriptor), any further attribute access by a
non-native name fails with the terminal-field error (`TerminalFieldError`);
no extended path and no other value is produced, so the access never silently
no-ops, and in this pure embedding the input path and its current type are
unchanged. -/
theorem terminalAccessFails (s : SchemaMeta) (fp : FieldPath) (name : String)
    (hterm : fp.type_.isTerminal = true)
    (hname : FieldPath.nativeNames.contains name = false) :
    FieldPath.getattr s fp name = .failed .terminalField := by
  obtain ⟨r, t, p⟩ := fp
  cases t <;>
    simp_all [FieldPath.getattr, FieldPath.type_, TypeMeta.isTerminal]

/-- Witness for C1: the scalar-terminated path `Query.pairs.price` refuses
the further attribute access `reserveUSD`. -/
theorem terminalAccessFails_witness :
    FieldPath.getattr Fixture.schema Fixture.pPairsPrice "reserveUSD" =
      .failed .terminalField :=
  terminalAccessFails Fixture.schema Fixture.pPairsPrice "reserveUSD"
    (by decide) (by decide)

/-- C10: attribute access with a name that is a native member of the wrapper
resolves to that member: the result is `native` for every schema (so the
schema is never consulted and the path is never extended), and consequently a
schema field whose name collides with a native member is unreachable via
attribute-style access; schema lookup happens only for names outside the
native member set. -/
theorem nativeAccessShadowsSchema (s1 s2 : SchemaMeta) (fp : FieldPath)
    (ob : Object) (name : String) :
    (FieldPath.nativeNames.contains name = true →
      FieldPath.getattr s1 fp name = .native ∧
      FieldPath.getattr s1 fp name = FieldPath.getattr s2 fp name) ∧
    (Object.nativeNames.contains name = true →
      Object.getattr s1 ob name = .native ∧
      Object.getattr s1 ob name = Object.getattr s2 ob name) := by
  constructor <;> intro h
  · have hmem : name ∈ FieldPath.nativeNames := by simpa using h
    simp [FieldPath.getattr, hmem]
  · have hmem : name ∈ Object.nativeNames := by simpa using h
    simp [Object.getattr, hmem]

/-- Witness for C10: even though the type `Shadow` declares a schema field
named `subgraph`, attribute access for `subgraph` on a path at `Shadow` (and
on an `Object` wrapping it) resolves natively and does not reach the schema
field. -/
theorem nativeAccessShadowsSchema_witness :
    FieldPath.getattr Fixture.schema Fixture.pShadow "subgraph" = .native ∧
    Object.getattr Fixture.schema (Object.mk Fixture.tyShadow) "subgraph" = .native := by
  have h := nativeAccessShadowsSchema Fixture.schema Fixture.schema
    Fixture.pShadow (Object.mk Fixture.tyShadow) "subgraph"
  exact ⟨(h.1 (by decide)).1, (h.2 (by decide)).1⟩

/-- C2 counterexample: the base path `cexA` ends in the concrete field `w`,
the name of the declared result type of `w` (the scalar `Foo`) equals the
extension path's declared root type name (`Foo`), yet `extend` does not
succeed — it fails, and not with the path-mismatch error but because the
result type is not an object or interface.  This refutes the claimed
"succeeds if and only if the names are equal". -/
theorem extendCharacterization_counterexample :
    Fixture.cexA.leaf = some (.mk (.fieldMeta Fixture.fmWeird) none) ∧
    type_of_field Fixture.cexSchema (.fieldMeta Fixture.fmWeird) =
      some (.ScalarMeta "Foo") ∧
    TypeMeta.name (.ScalarMeta "Foo") = Fixture.cexB.root_type.name ∧
    FieldPath.extend Fixture.cexSchema Fixture.cexA Fixture.cexB =
      .error .notObjectField :=
  ⟨rfl, rfl, rfl, rfl⟩

/-- C2 (amended): for paths `a` and `b` where `a`'s last element is a
concrete field, `extend a b` succeeds iff the declared result type of that
field is an object or interface type whose name equals `b`'s declared root
type name; on success the result is a new path keeping `a`'s root type,
taking `b`'s current type, with element sequence exactly `a.path ++ b.path`
(no deduplication, no reordering) — in this pure embedding neither input is
mutated.  When the result type is an object or interface with a different
name it fails with the path-mismatch error (when the result type is not an
object or interface it fails with a different error, as the counterexample
records). -/
theorem extendCharacterization (s : SchemaMeta) (a b : FieldPath)
    (ele : PathElement) (fmeta : FieldMeta)
    (hleaf : a.leaf = some ele) (hfm : ele.type_ = .fieldMeta fmeta) :
    (∀ r : FieldPath,
      FieldPath.extend s a b = .ok r ↔
        ((∃ fs, type_of_field s (.fieldMeta fmeta) =
            some (.ObjectMeta b.root_type.name fs)) ∨
         (∃ fs, type_of_field s (.fieldMeta fmeta) =
            some (.InterfaceMeta b.root_type.name fs))) ∧
        r = .mk a.root_type b.type_ (a.path ++ b.path)) ∧
    (∀ tname fs,
      (type_of_field s (.fieldMeta fmeta) = some (.ObjectMeta tname fs) ∨
       type_of_field s (.fieldMeta fmeta) = some (.InterfaceMeta tname fs)) →
      tname ≠ b.root_type.name →
      FieldPath.extend s a b = .error .pathMismatch) := by
  have hext : FieldPath.extend s a b =
      (match type_of_field s (.fieldMeta fmeta) with
       | some (.ObjectMeta tname _) | some (.InterfaceMeta tname _) =>
         if tname == b.root_type.name then
           .ok (.mk a.root_type b.type_ (a.path ++ b.path))
         else .error .pathMismatch
       | _ => .error .notObjectField) := by
    unfold FieldPath.extend
    rw [hleaf]
    dsimp only
    rw [hfm]
  constructor
  · intro r
    rw [hext]
    rcases htf : type_of_field s (.fieldMeta fmeta) with _ | ty
    · simp
    · cases ty with
      | ObjectMeta tname fields =>
        by_cases hbe : tname = b.root_type.name
        · subst hbe
          simp [Except.ok.injEq, eq_comm]
        · simp only [beq_iff_eq, hbe, if_false]
          constructor
          · intro h; exact absurd h (by simp)
          · rintro ⟨hor, _⟩
            rcases hor with ⟨fs, hfs⟩ | ⟨fs, hfs⟩ <;> simp_all
      | InterfaceMeta tname fields =>
        by_cases hbe : tname = b.root_type.name
        · subst hbe
          simp [Except.ok.injEq, eq_comm]
        · simp only [beq_iff_eq, hbe, if_false]
          constructor
          · intro h; exact absurd h (by simp)
          · rintro ⟨hor, _⟩
            rcases hor with ⟨fs, hfs⟩ | ⟨fs, hfs⟩ <;> simp_all
      | EnumMeta n => simp
      | ScalarMeta n => simp
      | SyntheticFieldMeta m => simp
  · intro tname fs hor hne
    rw [hext]
    rcases hor with htf | htf <;> rw [htf] <;>
      simp [beq_iff_eq, hne]

/-- Witness for C2 (amended): extending `Query.pairs` (an object-typed leaf
of result type `Pair`) with the `Pair`-rooted path `token0.symbol` succeeds
with the concatenated element sequence. -/
theorem extendCharacterization_witness :
    FieldPath.extend Fixture.schema Fixture.pPairs Fixture.pToken0Symbol =
      .ok (.mk Fixture.tyQuery (.ScalarMeta "String")
        (Fixture.pPairs.path ++ Fixture.pToken0Symbol.path)) := by
  have h := (extendCharacterization Fixture.schema Fixture.pPairs
    Fixture.pToken0Symbol (.mk (.fieldMeta Fixture.fmPairs) none)
    Fixture.fmPairs rfl rfl).1
  exact (h _).mpr ⟨Or.inl ⟨[.fieldMeta Fixture.fmToken0, .fieldMeta Fixture.fmPrice], rfl⟩, rfl⟩

/-- Helper: folding `dictInsert` over filters whose rendered names are
pairwise distinct and fresh for the accumulator just appends one entry per
filter, in order. -/
theorem to_dict_fold_of_nodup (fs : List Filter) :
    ∀ acc : List (String × CmpVal),
    (∀ g ∈ fs, ∀ kv ∈ acc, kv.1 ≠ g.name) →
    (fs.map Filter.name).Nodup →
    fs.foldl (fun d g => dictInsert d g.name g.value) acc =
      acc ++ fs.map (fun g => (g.name, g.value)) := by
  induction fs with
  | nil => intro acc _ _; simp
  | cons g gs ih =>
    intro acc hfresh hnodup
    have hins : dictInsert acc g.name g.value = acc ++ [(g.name, g.value)] := by
      unfold dictInsert
      have hany : acc.any (fun kv => kv.1 == g.name) = false := by
        rw [List.any_eq_false]
        intro kv hkv
        simpa using hfresh g (by simp) kv hkv
      rw [hany]
      simp
    have hfresh2 : ∀ g2 ∈ gs, ∀ kv ∈ acc ++ [(g.name, g.value)], kv.1 ≠ g2.name := by
      intro g2 hg2 kv hkv
      rcases List.mem_append.mp hkv with hin | hin
      · exact hfresh g2 (by simp [hg2]) kv hin
      · have hkv2 : kv = (g.name, g.value) := by simpa using hin
        subst hkv2
        intro hcontra
        have hnotin := (List.nodup_cons.mp hnodup).1
        have hmem : Filter.name g ∈ List.map Filter.name gs := by
          rw [show Filter.name g = Filter.name g2 from hcontra]
          exact List.mem_map_of_mem Filter.name hg2
        exact hnotin hmem
    rw [List.foldl_cons, hins, ih (acc ++ [(g.name, g.value)]) hfresh2
      (List.nodup_cons.mp hnodup).2]
    simp

/-- C3 counterexample: two filters with the same rendered name (two EQ
filters on `price`) do not contribute one mapping entry each — the keys
collide and the last value wins, so the `where` mapping has a single entry
for two filters, refuting the unconditional "one entry per Filter". -/
theorem whereMapping_counterexample :
    FieldPath.fmt_arg "where"
        (.filterList [.mk Fixture.fmPrice .EQ Fixture.v1,
                      .mk Fixture.fmPrice .EQ Fixture.v2]) =
      .ok (.filterDict [("price", Fixture.v2)]) ∧
    (Filter.to_dict [.mk Fixture.fmPrice .EQ Fixture.v1,
                     .mk Fixture.fmPrice .EQ Fixture.v2]).length = 1 :=
  ⟨rfl, rfl⟩

/-- C3 (amended): a `where` binding whose value is a non-empty list of
filters is converted to the mapping keyed by each filter's rendered name
(field name unchanged for EQ; suffixed `_not`, `_lt`, `_gt`, `_lte`, `_gte`
for NEQ, LT, GT, LTE, GTE); when the rendered names are pairwise distinct
each filter contributes exactly one entry, in order (filters sharing a
rendered name instead collapse into one entry, the last value winning, as
the counterexample records).  In particular an EQ filter and an NEQ filter
on the same field `price` with values `v1` and `v2` yield the mapping with
the two distinct keys `price` and `price_not`. -/
theorem whereMapping (f : Filter) (fs : List Filter) (fm : FieldMeta)
    (u w : CmpVal) (hnodup : ((f :: fs).map Filter.name).Nodup) :
    FieldPath.fmt_arg "where" (.filterList (f :: fs)) =
      .ok (.filterDict ((f :: fs).map (fun g => (g.name, g.value)))) ∧
    (Filter.name (.mk fm .EQ u) = fm.name ∧
     Filter.name (.mk fm .NEQ u) = fm.name ++ "_not" ∧
     Filter.name (.mk fm .LT u) = fm.name ++ "_lt" ∧
     Filter.name (.mk fm .GT u) = fm.name ++ "_gt" ∧
     Filter.name (.mk fm .LTE u) = fm.name ++ "_lte" ∧
     Filter.name (.mk fm .GTE u) = fm.name ++ "_gte") ∧
    Filter.to_dict [.mk fm .EQ u, .mk fm .NEQ w] =
      [(fm.name, u), (fm.name ++ "_not", w)] ∧
    fm.name ≠ fm.name ++ "_not" := by
  have hne : fm.name ≠ fm.name ++ "_not" := by
    intro hcontra
    have hlen := congrArg String.length hcontra
    rw [String.length_append] at hlen
    have h4 : "_not".length = 4 := rfl
    omega
  refine ⟨?_, ?_, ?_, hne⟩
  · show Except.ok (ArgValue.filterDict (Filter.to_dict (f :: fs))) = _
    rw [Filter.to_dict, to_dict_fold_of_nodup (f :: fs) [] (by simp) hnodup]
    simp
  · exact ⟨rfl, rfl, rfl, rfl, rfl, rfl⟩
  · rw [Filter.to_dict, to_dict_fold_of_nodup _ [] (by simp)
      (by simpa [Filter.name, Filter.op, Filter.field] using hne)]
    simp [Filter.name, Filter.op, Filter.field, Filter.value]

/-- Witness for C3 (amended): the EQ/NEQ pair on `price` yields the mapping
with distinct keys `price` and `price_not`. -/
theorem whereMapping_witness :
    FieldPath.fmt_arg "where"
        (.filterList [.mk Fixture.fmPrice .EQ Fixture.v1,
                      .mk Fixture.fmPrice .NEQ Fixture.v2]) =
      .ok (.filterDict [("price", Fixture.v1), ("price_not", Fixture.v2)]) := by
  have h := (whereMapping (.mk Fixture.fmPrice .EQ Fixture.v1)
    [.mk Fixture.fmPrice .NEQ Fixture.v2] Fixture.fmPrice
    Fixture.v1 Fixture.v2 (by decide)).1
  simpa using h

/-- Helper: `fmt_arg` at the name `orderBy` on a field-path value reduces to
the case analysis on the path's leaf. -/
theorem fmt_arg_orderBy (op : FieldPath) :
    FieldPath.fmt_arg "orderBy" (.fieldPathV op) =
      (match op.leaf with
       | some ele =>
         match ele.type_ with
         | .fieldMeta fmeta => .ok (.fieldName fmeta.name)
         | .synth _ => .error .invalidOrderBy
       | none => .error .indexError) := rfl

/-- C4: an argument binding whose `orderBy` value is a field path: when that
path's last element is a synthetic-field descriptor the binding fails with
the invalid-orderBy error (shown both for the formatting step and for a full
call on a concrete-field path); when its last element is a concrete field the
formatting step succeeds and the argument value passed onward to the Schema
Service is exactly that field's name. -/
theorem orderByBinding (s : SchemaMeta) (op q : FieldPath)
    (ele : PathElement) (hleaf : op.leaf = some ele) :
    (∀ m, ele.type_ = .synth m →
      FieldPath.fmt_arg "orderBy" (.fieldPathV op) = .error .invalidOrderBy ∧
      (∀ qele fm2, q.leaf = some qele → qele.type_ = .fieldMeta fm2 →
        FieldPath.call s q [("orderBy", .fieldPathV op)] =
          .error .invalidOrderBy)) ∧
    (∀ fm, ele.type_ = .fieldMeta fm →
      FieldPath.fmt_arg "orderBy" (.fieldPathV op) = .ok (.fieldName fm.name)) := by
  constructor
  · intro m hm
    have hfmt : FieldPath.fmt_arg "orderBy" (.fieldPathV op) =
        .error .invalidOrderBy := by
      rw [fmt_arg_orderBy, hleaf]
      dsimp only
      rw [hm]
    refine ⟨hfmt, ?_⟩
    intro qele fm2 hq hq2
    unfold FieldPath.call
    rw [hq]
    dsimp only
    rw [hq2]
    dsimp only
    unfold FieldPath.fmtKwargs
    rw [hfmt]
  · intro fm hfm
    rw [fmt_arg_orderBy, hleaf]
    dsimp only
    rw [hfm]

/-- Witness for C4: binding `orderBy` to the synthetic-terminated path fails
with the invalid-orderBy error even through a full call on `Query.pairs`,
while binding it to the concrete path `Pair.price` formats to the argument
value `price`. -/
theorem orderByBinding_witness :
    FieldPath.call Fixture.schema Fixture.pPairs
        [("orderBy", .fieldPathV Fixture.pSynth)] = .error .invalidOrderBy ∧
    FieldPath.fmt_arg "orderBy" (.fieldPathV Fixture.pPrice) =
      .ok (.fieldName "price") := by
  constructor
  · exact (((orderByBinding Fixture.schema Fixture.pSynth Fixture.pPairs
      (.mk (.synth Fixture.sfm0) none) rfl).1 Fixture.sfm0 rfl).2
      (.mk (.fieldMeta Fixture.fmPairs) none) Fixture.fmPairs rfl rfl)
  · exact ((orderByBinding Fixture.schema Fixture.pPrice Fixture.pPairs
      (.mk (.fieldMeta Fixture.fmPrice) none) rfl).2 Fixture.fmPrice rfl)

/-- C5: calling a field path with named arguments fails with the
invalid-argument error when its last element is a synthetic-field
descriptor; when the last element is a concrete field and the formatted
keyword arguments validate, the validated name-to-value mapping is attached
to the last path element, replacing any previously bound arguments there
(the new bindings are independent of the old ones, which do not occur in the
result), and the returned path is the input path with only that leaf
replacement. -/
theorem callBinding (s : SchemaMeta) (fp : FieldPath)
    (kwargs : List (String × RawArg)) (ele : PathElement)
    (hleaf : fp.leaf = some ele) :
    (∀ m, ele.type_ = .synth m →
      FieldPath.call s fp kwargs = .error .invalidArgument) ∧
    (∀ fm fmtd args, ele.type_ = .fieldMeta fm →
      FieldPath.fmtKwargs kwargs = .ok fmtd →
      arguments_of_field_args s fm fmtd = .ok args →
      FieldPath.call s fp kwargs =
        .ok (.mk fp.root_type fp.type_
          (fp.path.dropLast ++ [.mk ele.type_ (some args)]))) := by
  constructor
  · intro m hm
    unfold FieldPath.call
    rw [hleaf]
    dsimp only
    rw [hm]
  · intro fm fmtd args hfm hfmt hargs
    unfold FieldPath.call
    rw [hleaf]
    dsimp only
    rw [hfm]
    dsimp only
    rw [hfmt]
    dsimp only
    rw [hargs]

/-- Witness for C5: binding `first` on `Query.pairs` (whose leaf previously
had no bound arguments) succeeds and attaches exactly the validated mapping
to the leaf element; the same theorem instantiated at the
synthetic-terminated path yields the invalid-argument error. -/
theorem callBinding_witness :
    FieldPath.call Fixture.schema Fixture.pPairs
        [("first", .prim (.vint 10))] =
      .ok (.mk Fixture.tyQuery Fixture.tyPair
        [.mk (.fieldMeta Fixture.fmPairs)
          (some [.mk "first" (.raw (.prim (.vint 10)))])]) ∧
    FieldPath.call Fixture.schema Fixture.pSynth
        [("first", .prim (.vint 10))] = .error .invalidArgument := by
  constructor
  · have h := ((callBinding Fixture.schema Fixture.pPairs
      [("first", .prim (.vint 10))] (.mk (.fieldMeta Fixture.fmPairs) none)
      rfl).2 Fixture.fmPairs [("first", .raw (.prim (.vint 10)))]
      [.mk "first" (.raw (.prim (.vint 10)))] rfl rfl rfl)
    simpa using h
  · exact ((callBinding Fixture.schema Fixture.pSynth
      [("first", .prim (.vint 10))] (.mk (.synth Fixture.sfm0) none)
      rfl).1 Fixture.sfm0 rfl)

/-- Helper: `mk_filter` reduces to the case analysis on the leaf element's
field reference. -/
theorem mk_filter_char (fpath : FieldPath) (op : Operator) (v : CmpVal)
    (ele : PathElement) (hleaf : fpath.leaf = some ele) :
    FieldPath.mk_filter fpath op v =
      (match ele.type_ with
       | .fieldMeta fmeta => .ok (.mk fmeta op v)
       | .synth _ => .error .invalidFilter) := by
  unfold FieldPath.mk_filter
  rw [hleaf]
  obtain ⟨t, a⟩ := ele
  cases t <;> rfl

/-- C6: each direct comparison method (`__eq__` outside test mode, `__lt__`,
`__gt__`, `__lte__`, `__gte__`) applied with a value to a path whose last
element is a concrete field produces the filter pairing exactly that field,
the method's operator and that value; applied to a path whose last element
is a synthetic-field descriptor it fails with the invalid-filter error; no
direct comparison method ever produces a NEQ filter; and the EQ method
outside test mode is exactly the EQ filter construction. -/
theorem directComparison (sel : CmpSel) (self : FieldPath) (v : CmpVal)
    (ele : PathElement) (hleaf : self.leaf = some ele) :
    (∀ fm, ele.type_ = .fieldMeta fm →
      FieldPath.compare sel self v = .ok (.mk fm sel.op v)) ∧
    (∀ m, ele.type_ = .synth m →
      FieldPath.compare sel self v = .error .invalidFilter) ∧
    (∀ fl : Filter, FieldPath.compare sel self v = .ok fl → fl.op ≠ .NEQ) ∧
    FieldPath.eq false self v = .filterRes (FieldPath.mk_filter self .EQ v) := by
  have hcmp : FieldPath.compare sel self v = FieldPath.mk_filter self sel.op v := by
    cases sel <;> rfl
  refine ⟨?_, ?_, ?_, rfl⟩
  · intro fm hfm
    rw [hcmp, mk_filter_char self sel.op v ele hleaf, hfm]
  · intro m hm
    rw [hcmp, mk_filter_char self sel.op v ele hleaf, hm]
  · intro fl hok
    rw [hcmp, mk_filter_char self sel.op v ele hleaf] at hok
    obtain ⟨t, a⟩ := ele
    cases t with
    | fieldMeta fm =>
      simp only [PathElement.type_] at hok
      have hfl : fl = .mk fm sel.op v := by
        cases hok
        rfl
      subst hfl
      cases sel <;> simp [Filter.op, CmpSel.op]
    | synth m =>
      simp only [PathElement.type_] at hok
      cases hok

/-- Witness for C6: `<` on the concrete path `Pair.price` yields the LT
filter on `price`, while EQ comparison on the synthetic-terminated path
fails with the invalid-filter error. -/
theorem directComparison_witness :
    FieldPath.compare .ltS Fixture.pPrice Fixture.v1 =
      .ok (.mk Fixture.fmPrice .LT Fixture.v1) ∧
    FieldPath.compare .eqS Fixture.pSynth Fixture.v1 =
      .error .invalidFilter := by
  constructor
  · exact ((directComparison .ltS Fixture.pPrice Fixture.v1
      (.mk (.fieldMeta Fixture.fmPrice) none) rfl).1 Fixture.fmPrice rfl)
  · exact ((directComparison .eqS Fixture.pSynth Fixture.v1
      (.mk (.synth Fixture.sfm0) none) rfl).2.1 Fixture.sfm0 rfl)

/-- C7: every arithmetic operator (the five binary methods and the unary
`neg`/`abs`) applied to a field path or a synthetic field produces a new
anonymous synthetic field whose stored function is the corresponding
operator and whose ordered dependency list is the operands, each lowered (a
field path to its element chain — bound arguments paired with the field for
a concrete element, the bare descriptor for a synthetic element —, a
synthetic field to its descriptor, a literal to itself), while the counter
advances by one; in particular `(x + y) - z` yields a synthetic field whose
function is `sub` and whose dependency list is
`[descriptor(x + y), lowered(z)]`. -/
theorem arithmeticComposition (sel : ArithSel) (c : Nat) (x : FieldPath)
    (sf : SyntheticField) (other : Operand) :
    ((FieldPath.arith sel c x other).1.meta =
        .mk (autoName c) "" sel.fn [lowerDep (.fpath x), lowerDep other] ∧
      (FieldPath.arith sel c x other).1.func = sel.fn ∧
      (FieldPath.arith sel c x other).1.deps = [.fpath x, other] ∧
      (FieldPath.arith sel c x other).2 = c + 1) ∧
    ((SyntheticField.arith sel c sf other).1.meta =
        .mk (autoName c) "" sel.fn [lowerDep (.sfield sf), lowerDep other] ∧
      (SyntheticField.arith sel c sf other).2 = c + 1) ∧
    ((FieldPath.neg c x).1.meta =
        .mk (autoName c) "" .neg [lowerDep (.fpath x)] ∧
      (FieldPath.abs c x).1.meta =
        .mk (autoName c) "" .abs [lowerDep (.fpath x)] ∧
      (SyntheticField.neg c sf).1.meta =
        .mk (autoName c) "" .neg [lowerDep (.sfield sf)] ∧
      (SyntheticField.abs c sf).1.meta =
        .mk (autoName c) "" .abs [lowerDep (.sfield sf)]) ∧
    (∀ y z : FieldPath,
      (SyntheticField.sub (FieldPath.add c x (.fpath y)).2
          (FieldPath.add c x (.fpath y)).1 (.fpath z)).1.meta.dependencies =
        [.sfmeta (FieldPath.add c x (.fpath y)).1.meta, lowerDep (.fpath z)] ∧
      (SyntheticField.sub (FieldPath.add c x (.fpath y)).2
          (FieldPath.add c x (.fpath y)).1 (.fpath z)).1.meta.func = .sub) := by
  refine ⟨?_, ?_, ⟨rfl, rfl, rfl, rfl⟩, ?_⟩
  · cases sel <;> exact ⟨rfl, rfl, rfl, rfl⟩
  · cases sel <;> exact ⟨rfl, rfl⟩
  · intro y z
    exact ⟨rfl, rfl⟩

/-- Helper: with fuel above `n`, `Nat.toDigitsCore` computes the base-`b`
digit characters of a positive `n`, most significant first, in front of the
accumulator. -/
theorem toDigitsCore_eq_digits (b : Nat) (hb : 1 < b) :
    ∀ (f n : Nat) (acc : List Char), 0 < n → n < f →
      Nat.toDigitsCore b f n acc =
        ((Nat.digits b n).map Nat.digitChar).reverse ++ acc := by
  intro f
  induction f with
  | zero =>
    intro n acc h0 hf
    exact absurd hf (Nat.not_lt_zero n)
  | succ f ih =>
    intro n acc h0 hf
    simp only [Nat.toDigitsCore]
    by_cases hdiv : n / b = 0
    · have hnb : n < b := by
        rcases Nat.lt_or_ge n b with h | h
        · exact h
        · exfalso
          have : 0 < n / b := Nat.div_pos h (by omega)
          omega
      simp only [hdiv, if_true]
      rw [Nat.digits_of_lt b n (by omega) hnb, Nat.mod_eq_of_lt hnb]
      simp
    · have hn' : 0 < n / b := Nat.pos_of_ne_zero hdiv
      have hlt : n / b < f := by
        have h1 : n / b < n := Nat.div_lt_self h0 hb
        omega
      simp only [hdiv, if_false]
      rw [ih (n / b) (Nat.digitChar (n % b) :: acc) hn' hlt,
        Nat.digits_def' hb h0]
      simp

/-- Helper: the decimal string of a positive number is its digit characters,
most significant first. -/
theorem repr_eq_digits (n : Nat) (h0 : 0 < n) :
    Nat.repr n = (((Nat.digits 10 n).map Nat.digitChar).reverse).asString := by
  show (Nat.toDigits 10 n).asString = _
  rw [Nat.toDigits,
    toDigitsCore_eq_digits 10 (by norm_num) (n + 1) n [] h0 (Nat.lt_succ_self n)]
  simp

/-- Helper: `Nat.digitChar` is injective below 10. -/
theorem digitChar_inj_lt (a b : Nat) (ha : a < 10) (hb : b < 10)
    (h : Nat.digitChar a = Nat.digitChar b) : a = b := by
  interval_cases a <;> interval_cases b <;> first | rfl | (revert h; decide)

/-- Helper: mapping `Nat.digitChar` over digit lists is injective. -/
theorem map_digitChar_inj : ∀ (l1 l2 : List Nat),
    (∀ x ∈ l1, x < 10) → (∀ x ∈ l2, x < 10) →
    l1.map Nat.digitChar = l2.map Nat.digitChar → l1 = l2
  | [], [], _, _, _ => rfl
  | [], _ :: _, _, _, h => by simp at h
  | _ :: _, [], _, _, h => by simp at h
  | a :: l1, b :: l2, h1, h2, h => by
    simp only [List.map_cons, List.cons.injEq] at h
    have hd := digitChar_inj_lt a b (h1 a (by simp)) (h2 b (by simp)) h.1
    have tl := map_digitChar_inj l1 l2 (fun x hx => h1 x (by simp [hx]))
      (fun x hx => h2 x (by simp [hx])) h.2
    rw [hd, tl]

/-- Helper: the decimal rendering of a natural number is injective. -/
theorem nat_repr_injective (m n : Nat) (h : Nat.repr m = Nat.repr n) :
    m = n := by
  have key : ∀ a c : Nat, 0 < a → 0 < c → Nat.repr a = Nat.repr c → a = c := by
    intro a c ha hc hac
    rw [repr_eq_digits a ha, repr_eq_digits c hc] at hac
    have hlist := List.asString_inj.mp hac
    have hrev := List.reverse_injective hlist
    have hdig := map_digitChar_inj _ _
      (fun x hx => Nat.digits_lt_base (by norm_num) hx)
      (fun x hx => Nat.digits_lt_base (by norm_num) hx) hrev
    exact Nat.digits_inj_iff.mp hdig
  have zero_pos : ∀ c : Nat, 0 < c → Nat.repr 0 ≠ Nat.repr c := by
    intro c hc hcontra
    have h0 : Nat.repr 0 = ['0'].asString := rfl
    rw [h0, repr_eq_digits c hc] at hcontra
    have hlist := List.asString_inj.mp hcontra
    have hrev : (Nat.digits 10 c).map Nat.digitChar = ['0'] := by
      have := congrArg List.reverse hlist
      simpa using this.symm
    have hdig : Nat.digits 10 c = [0] := by
      have := map_digitChar_inj (Nat.digits 10 c) [0]
        (fun x hx => Nat.digits_lt_base (by norm_num) hx)
        (by intro x hx; simp at hx; omega) (by simpa using hrev)
      exact this
    have hc0 := Nat.ofDigits_digits 10 c
    rw [hdig] at hc0
    simp [Nat.ofDigits] at hc0
    omega
  rcases Nat.eq_zero_or_pos m with hm | hm <;> rcases Nat.eq_zero_or_pos n with hn | hn
  · omega
  · exact absurd (hm ▸ h) (zero_pos n hn)
  · exact absurd (hn ▸ h).symm (zero_pos m hm)
  · exact key m n hm hn h

/-- Helper: the auto-generated synthetic-field name determines the counter
value it was generated from. -/
theorem autoName_injective (c1 c2 : Nat) (h : autoName c1 = autoName c2) :
    c1 = c2 := by
  unfold autoName at h
  have hdata := congrArg String.data h
  rw [String.data_append, String.data_append] at hdata
  have := List.append_cancel_left hdata
  exact nat_repr_injective c1 c2 (String.ext this)

/-- Helper: the final counter after a run of constructions. -/
theorem runConstructions_counter (reqs : List (Fn × List Operand)) :
    ∀ c0, (runConstructions c0 reqs).2 = c0 + reqs.length := by
  induction reqs with
  | nil => intro c0; simp [runConstructions]
  | cons r rest ih =>
    intro c0
    simp only [runConstructions, List.length_cons]
    have hc : (SyntheticField.construct c0 r.1 r.2).2 = c0 + 1 := rfl
    rw [hc, ih (c0 + 1)]
    omega

/-- Helper: the descriptor names assigned during a run of constructions, in
order. -/
theorem runConstructions_names (reqs : List (Fn × List Operand)) :
    ∀ c0, (runConstructions c0 reqs).1.map (fun sf => sf.meta.name) =
      (List.range reqs.length).map (fun i => autoName (c0 + i)) := by
  induction reqs with
  | nil => intro c0; rfl
  | cons r rest ih =>
    intro c0
    simp only [runConstructions, List.length_cons, List.map_cons,
      List.range_succ_eq_map, List.map_map]
    have hc : (SyntheticField.construct c0 r.1 r.2).2 = c0 + 1 := rfl
    congr 1
    rw [hc, ih (c0 + 1)]
    apply List.map_congr_left
    intro i hi
    have h2 : c0 + 1 + i = c0 + Nat.succ i := by omega
    simp only [Function.comp_apply]
    rw [h2]

/-- C8: the counter naming anonymous synthetic fields starts at 0; every
construction increments it by exactly one and names its descriptor
`SyntheticField_<c>` with `c` the counter value observed at construction;
after any sequential run of constructions the counter equals its start value
plus the number of constructions (never reset, never rolled back — there is
no error path), the names assigned are exactly the consecutive
`SyntheticField_<c0>`, `SyntheticField_<c0+1>`, ... and they are pairwise
distinct. -/
theorem counterNaming (c0 : Nat) (reqs : List (Fn × List Operand))
    (func : Fn) (deps : List Operand) :
    counter0 = 0 ∧
    (SyntheticField.construct c0 func deps).2 = c0 + 1 ∧
    (SyntheticField.construct c0 func deps).1.meta.name = autoName c0 ∧
    (runConstructions c0 reqs).2 = c0 + reqs.length ∧
    (runConstructions c0 reqs).1.map (fun sf => sf.meta.name) =
      (List.range reqs.length).map (fun i => autoName (c0 + i)) ∧
    ((runConstructions c0 reqs).1.map (fun sf => sf.meta.name)).Nodup := by
  refine ⟨rfl, rfl, rfl, runConstructions_counter reqs c0,
    runConstructions_names reqs c0, ?_⟩
  rw [runConstructions_names reqs c0]
  apply List.Nodup.map
  · intro i j hij
    have := autoName_injective (c0 + i) (c0 + j) hij
    omega
  · exact List.nodup_range _

/-- Helper: the invariant of a path whose element list is an append. -/
theorem argsOk_append (rt t : TypeMeta) (l1 l2 : List PathElement) :
    FieldPath.argsOk (.mk rt t (l1 ++ l2)) =
      (l1.all PathElement.argsOk && l2.all PathElement.argsOk) := by
  show (l1 ++ l2).all PathElement.argsOk = _
  exact List.all_append

/-- C9: every operation that creates or returns a field path — root access
on an `Object`, attribute extension, argument binding, composition with
`extend` — preserves the path-element invariant: bound arguments occur only
on elements whose field reference is a concrete field, and a synthetic-field
element never carries arguments. -/
theorem invariantPreservation (s : SchemaMeta) (ob : Object) (name : String)
    (fp fp2 a b : FieldPath) (kwargs : List (String × RawArg)) :
    (∀ r, Object.getattr s ob name = .newPath r → r.argsOk = true) ∧
    (fp.argsOk = true →
      ∀ r, FieldPath.getattr s fp name = .extended r → r.argsOk = true) ∧
    (fp2.argsOk = true →
      ∀ r, FieldPath.call s fp2 kwargs = .ok r → r.argsOk = true) ∧
    (a.argsOk = true → b.argsOk = true →
      ∀ r, FieldPath.extend s a b = .ok r → r.argsOk = true) := by
  refine ⟨?_, ?_, ?_, ?_⟩
  · intro r h
    unfold Object.getattr at h
    by_cases hn : Object.nativeNames.contains name
    · rw [if_pos hn] at h
      cases h
    · rw [if_neg hn] at h
      rcases hf : field_of_object ob.object_ name with _ | field <;>
        rw [hf] at h <;> dsimp only at h
      · cases h
      · rcases ht : type_of_field s field with _ | t <;>
          rw [ht] at h <;> dsimp only at h
        · cases h
        · injection h with h2
          subst h2
          rfl
  · intro hok r h
    obtain ⟨rt, t, p⟩ := fp
    unfold FieldPath.getattr at h
    by_cases hn : FieldPath.nativeNames.contains name
    · rw [if_pos hn] at h
      cases h
    · rw [if_neg hn] at h
      simp only [FieldPath.type_] at h
      cases t with
      | ObjectMeta tn fs =>
        dsimp only at h
        rcases hf : field_of_object (TypeMeta.ObjectMeta tn fs) name with _ | field <;>
          rw [hf] at h <;> dsimp only at h
        · cases h
        · rcases ht : type_of_field s field with _ | ty <;>
            rw [ht] at h <;> dsimp only at h
          · cases h
          · injection h with h2
            subst h2
            rw [argsOk_append]
            have hp : (FieldPath.mk rt (TypeMeta.ObjectMeta tn fs) p).path.all
                PathElement.argsOk = true := hok
            rw [hp]
            rfl
      | InterfaceMeta tn fs =>
        dsimp only at h
        rcases hf : field_of_object (TypeMeta.InterfaceMeta tn fs) name with _ | field <;>
          rw [hf] at h <;> dsimp only at h
        · cases h
        · rcases ht : type_of_field s field with _ | ty <;>
            rw [ht] at h <;> dsimp only at h
          · cases h
          · injection h with h2
            subst h2
            rw [argsOk_append]
            have hp : (FieldPath.mk rt (TypeMeta.InterfaceMeta tn fs) p).path.all
                PathElement.argsOk = true := hok
            rw [hp]
            rfl
      | EnumMeta n => cases h
      | ScalarMeta n => cases h
      | SyntheticFieldMeta m => cases h
  · intro hok r h
    unfold FieldPath.call at h
    rcases hleaf : fp2.leaf with _ | ele <;> rw [hleaf] at h <;> dsimp only at h
    · cases h
    · obtain ⟨et, ea⟩ := ele
      cases et with
      | synth m =>
        simp only [PathElement.type_] at h
        cases h
      | fieldMeta fm =>
        simp only [PathElement.type_] at h
        rcases hfmt : FieldPath.fmtKwargs kwargs with e | fmtd <;>
          rw [hfmt] at h <;> dsimp only at h
        · cases h
        · rcases hargs : arguments_of_field_args s fm fmtd with e | args <;>
            rw [hargs] at h <;> dsimp only at h
          · cases h
          · injection h with h2
            subst h2
            have hsub : fp2.path.dropLast.all PathElement.argsOk = true := by
              rw [List.all_eq_true]
              intro x hx
              have hxmem : x ∈ fp2.path := by
                have heq := List.dropLast_append_getLast?
                  (PathElement.mk (.fieldMeta fm) ea) hleaf
                rw [← heq]
                exact List.mem_append_left _ hx
              have hall : fp2.path.all PathElement.argsOk = true := hok
              exact (List.all_eq_true.mp hall) x hxmem
            rw [argsOk_append, hsub]
            rfl
  · intro ha hb r h
    unfold FieldPath.extend at h
    rcases hleaf : a.leaf with _ | ele <;> rw [hleaf] at h <;> dsimp only at h
    · cases h
    · obtain ⟨et, ea⟩ := ele
      cases et with
      | synth m =>
        simp only [PathElement.type_] at h
        cases h
      | fieldMeta fm =>
        simp only [PathElement.type_] at h
        rcases ht : type_of_field s (.fieldMeta fm) with _ | ty <;>
          rw [ht] at h
        · dsimp only at h
          cases h
        · cases ty with
          | ObjectMeta tn fs =>
            dsimp only at h
            by_cases hbe : (tn == b.root_type.name) = true
            · rw [if_pos hbe] at h
              injection h with h2
              subst h2
              have hpa : a.path.all PathElement.argsOk = true := ha
              have hpb : b.path.all PathElement.argsOk = true := hb
              rw [argsOk_append, hpa, hpb]
              rfl
            · rw [if_neg hbe] at h
              cases h
          | InterfaceMeta tn fs =>
            dsimp only at h
            by_cases hbe : (tn == b.root_type.name) = true
            · rw [if_pos hbe] at h
              injection h with h2
              subst h2
              have hpa : a.path.all PathElement.argsOk = true := ha
              have hpb : b.path.all PathElement.argsOk = true := hb
              rw [argsOk_append, hpa, hpb]
              rfl
            · rw [if_neg hbe] at h
              cases h
          | EnumMeta n =>
            dsimp only at h
            cases h
          | ScalarMeta n =>
            dsimp only at h
            cases h
          | SyntheticFieldMeta m =>
            dsimp only at h
            cases h

/-- Witness for C9: the path produced by root access `Query.pairs`, the
extension `Query.pairs.price`, a call binding `first` on `Query.pairs`, and
the composition of `Query.pairs` with `Pair.token0.symbol` all satisfy the
invariant. -/
theorem invariantPreservation_witness :
    Fixture.pPairs.argsOk = true ∧
    Fixture.pPairsPrice.argsOk = true ∧
    FieldPath.argsOk
      (.mk Fixture.tyQuery Fixture.tyPair
        [.mk (.fieldMeta Fixture.fmPairs)
          (some [.mk "first" (.raw (.prim (.vint 10)))])]) = true ∧
    FieldPath.argsOk
      (.mk Fixture.tyQuery (.ScalarMeta "String")
        (Fixture.pPairs.path ++ Fixture.pToken0Symbol.path)) = true := by
  have h1 := invariantPreservation Fixture.schema Fixture.obQuery "pairs"
    Fixture.pPairs Fixture.pPairs Fixture.pPairs Fixture.pToken0Symbol
    [("first", .prim (.vint 10))]
  have h2 := invariantPreservation Fixture.schema Fixture.obQuery "price"
    Fixture.pPairs Fixture.pPairs Fixture.pPairs Fixture.pToken0Symbol
    [("first", .prim (.vint 10))]
  refine ⟨h1.1 Fixture.pPairs rfl, ?_, ?_, ?_⟩
  · exact h2.2.1 rfl Fixture.pPairsPrice rfl
  · exact h1.2.2.1 rfl _ rfl
  · exact h1.2.2.2 rfl rfl _ rfl

end Subgrounds
